import Mathlib

/-!
Verification development for the `penguin` container-process resolver
(`pid.py`).  The Python module is shallowly embedded: every pseudo-file
read (`/proc`, `/sys/fs/cgroup`) is an abstract world lookup returning
either the file's contents or the OS exception class the corresponding
Python call can raise; uncaught Python exceptions become an `Except`
error value.  String operations are re-implemented over `List Char` so
that every definition evaluates by kernel reduction (Python's semantics
for the ASCII inputs that occur here; Unicode digit or case forms and
underscore separators accepted by Python's `int` are outside the model).
-/

/-- Outcome of one pseudo-file system call: the payload, or the class of
OS exception the call raised (`FileNotFoundError`, `PermissionError`, or
another `OSError`). -/
inductive RRes (α : Type) where
  | ok : α → RRes α
  | fnf : RRes α
  | perm : RRes α
  | oserr : RRes α
deriving DecidableEq

/-- Class of a Python exception escaping one of the embedded functions. -/
inductive PyErr where
  | valueError
  | permissionError
  | osError
  | fileNotFoundError
  | runtimeError
deriving DecidableEq

deriving instance DecidableEq for Except

/-! String primitives mirroring the Python methods used by `pid.py`. -/

/-- Python `str.lower()` (ASCII). -/
def pyLower (s : String) : String := ⟨s.data.map Char.toLower⟩

/-- Python `str.strip()` with no argument: drop whitespace on both ends. -/
def pyStrip (s : String) : String :=
  ⟨((s.data.dropWhile Char.isWhitespace).reverse.dropWhile Char.isWhitespace).reverse⟩

/-- Python `s.startswith(pre)`. -/
def strStarts (s pre : String) : Bool := pre.data.isPrefixOf s.data

/-- Does `sub` occur as a contiguous subsequence of the character list? -/
def containsSub (sub : List Char) : List Char → Bool
  | [] => sub.isEmpty
  | c :: rest => sub.isPrefixOf (c :: rest) || containsSub sub rest

/-- Python `sub in hay` on strings. -/
def pyContains (hay sub : String) : Bool := containsSub sub.data hay.data

/-- Characters strictly after the first occurrence of `sep`, if any. -/
def afterFirstSub (sep : List Char) : List Char → Option (List Char)
  | [] => none
  | c :: rest =>
    if sep.isPrefixOf (c :: rest) then some ((c :: rest).drop sep.length)
    else afterFirstSub sep rest

/-- Python `s.split(sep, 1)[1]`, used only where the code has already
checked that `sep` occurs in `s` (so index 1 exists). -/
def pySplitOnce (s sep : String) : String :=
  ⟨(afterFirstSub sep.data s.data).getD []⟩

/-- Worker for whitespace splitting: `cur` holds the reversed current word. -/
def splitWsGo : List Char → List Char → List (List Char)
  | [], cur => if cur.isEmpty then [] else [cur.reverse]
  | c :: rest, cur =>
    if c.isWhitespace then
      (if cur.isEmpty then splitWsGo rest [] else cur.reverse :: splitWsGo rest [])
    else splitWsGo rest (c :: cur)

/-- Python `s.split()` with no argument: split on whitespace runs,
discarding empty fields. -/
def pySplit (s : String) : List String := (splitWsGo s.data []).map fun l => ⟨l⟩

/-- Value of a string of decimal digits. -/
def digitsToNat (l : List Char) : Nat := l.foldl (fun n c => 10 * n + (c.toNat - 48)) 0

/-- Nonempty and all ASCII decimal digits. -/
def isDigits (l : List Char) : Bool := !l.isEmpty && l.all Char.isDigit

/-- Python `str.isdigit()` (ASCII). -/
def pyIsDigit (s : String) : Bool := isDigits s.data

/-- Python `int(tok)` on a whitespace-free token: optional sign then
decimal digits, `none` when `int` would raise `ValueError`. -/
def pyIntTok (s : String) : Option Int :=
  match s.data with
  | '-' :: ds => if isDigits ds then some (-(digitsToNat ds : Int)) else none
  | '+' :: ds => if isDigits ds then some ((digitsToNat ds : Int)) else none
  | ds => if isDigits ds then some ((digitsToNat ds : Int)) else none

/-- Python `s.lstrip("/")`. -/
def lstripSlashes (s : String) : String := ⟨s.data.dropWhile (fun c => c = '/')⟩

/-- The cgroup v2 mount root used by `pid.py`. -/
def CG2_ROOT : String := "/sys/fs/cgroup"

/-- Python `os.path.join(root, rest)` as used here: `rest` is never
absolute (it has been `lstrip`ped of slashes) and `root` has no trailing
slash. -/
def pyJoin (root rest : String) : String := root ++ "/" ++ rest

/-! The PID-namespace enumerator `list_container_pids_and_names`. -/

/-- World snapshot consumed by the enumerator: the `/proc` directory
listing and, per entry `e`, the outcomes of `readlink /proc/e/ns/pid`,
of reading the lines of `/proc/e/status`, and of reading
`/proc/e/comm`. -/
structure ProcWorld where
  entries : List String
  nsPid : String → RRes String
  status : String → RRes (List String)
  comm : String → RRes String

/-- The `for line in f` loop over `/proc/<pid>/status`: accumulate the
`Name:` value and the last `NSpid:` token, breaking as soon as an
`NSpid:` line leaves both set; `int()` on a malformed token raises
`ValueError`, which the loop does not catch. -/
def scanStatusLines : List String → Option String → Option Int →
    Except PyErr (Option String × Option Int)
  | [], name, cpid => .ok (name, cpid)
  | line :: rest, name, cpid =>
    if strStarts line "Name:" then
      scanStatusLines rest (some (pyStrip (pySplitOnce line ":"))) cpid
    else if strStarts line "NSpid:" then
      match (pySplit line).tail with
      | [] =>
        if name.isSome && cpid.isSome then .ok (name, cpid)
        else scanStatusLines rest name cpid
      | p :: ps =>
        match pyIntTok ((p :: ps).getLast (List.cons_ne_nil p ps)) with
        | none => .error .valueError
        | some v =>
          if name.isSome then .ok (name, some v)
          else scanStatusLines rest name (some v)
    else scanStatusLines rest name cpid

/-- Body of the per-entry loop of `list_container_pids_and_names`:
`.ok none` is `continue` (non-digit name, namespace mismatch, or a
caught `FileNotFoundError` / `PermissionError` / `OSError`);
`.ok (some (cpid, name))` is an appended result; `.error` is an
exception the loop's handlers do not catch. -/
def processEntry (w : ProcWorld) (refNs : String) (entry : String) :
    Except PyErr (Option (Int × String)) :=
  if pyIsDigit entry then
    match w.nsPid entry with
    | .fnf => .ok none
    | .perm => .ok none
    | .oserr => .ok none
    | .ok ns =>
      if ns = refNs then
        match w.status entry with
        | .fnf => .ok none
        | .perm => .ok none
        | .oserr => .ok none
        | .ok lines =>
          match scanStatusLines lines none none with
          | .error e => .error e
          | .ok (someName, cpidOpt) =>
            match someName with
            | some name =>
              match cpidOpt with
              | none => .ok none
              | some cpid => .ok (some (cpid, name))
            | none =>
              match w.comm entry with
              | .fnf => .ok none
              | .perm => .ok none
              | .oserr => .ok none
              | .ok c =>
                match cpidOpt with
                | none => .ok none
                | some cpid => .ok (some (cpid, pyStrip c))
      else .ok none
  else .ok none

/-- The whole `for entry in os.listdir(proc_base)` loop, collecting the
appended results in iteration order. -/
def scanEntries (w : ProcWorld) (refNs : String) :
    List String → Except PyErr (List (Int × String))
  | [] => .ok []
  | e :: rest =>
    match processEntry w refNs e with
    | .error err => .error err
    | .ok none => scanEntries w refNs rest
    | .ok (some r) =>
      match scanEntries w refNs rest with
      | .error err => .error err
      | .ok tl => .ok (r :: tl)

/-- Comparison used by `results.sort(key=lambda t: t[0])`. -/
def leFst : Int × String → Int × String → Prop := fun a b => a.1 ≤ b.1

instance : DecidableRel leFst := fun a b => inferInstanceAs (Decidable (a.1 ≤ b.1))

instance : IsTotal (Int × String) leFst := ⟨fun a b => Int.le_total a.1 b.1⟩

instance : IsTrans (Int × String) leFst := ⟨fun _ _ _ h1 h2 => le_trans h1 h2⟩

/-- `list_container_pids_and_names(container_host_pid)`: resolve the
reference namespace handle (re-raising `ValueError` on a missing entry
and `PermissionError` on privilege), scan every `/proc` entry, and
return the results sorted by container pid (Python's stable ascending
sort). -/
def list_container_pids_and_names (w : ProcWorld) (container_host_pid : Nat) :
    Except PyErr (List (Int × String)) :=
  match w.nsPid (toString container_host_pid) with
  | .fnf => .error .valueError
  | .perm => .error .permissionError
  | .oserr => .error .osError
  | .ok refNs =>
    match scanEntries w refNs w.entries with
    | .error e => .error e
    | .ok results => .ok (List.insertionSort leFst results)

/-! The cgroup v2 side: `container_cg2_path`, `_read_pids_from_cgroup_dir`,
`_recursive_pids`, `host_pids`, `host_pid_of_container_init`. -/

/-- World snapshot consumed by the cgroup-side functions.  `walkAt p` is
`some nodes` when the absolute path `p` is a directory, where `nodes`
lists, for every node `os.walk(p)` yields (the root first, then all
descendants top-down), the outcome of reading that node's
`cgroup.procs` file. -/
structure CgWorld where
  cgroupV2 : Bool
  procEntries : List String
  cgroupFile : String → RRes (List String)
  walkAt : String → Option (List (RRes (List String)))
  status : Int → RRes (List String)

/-- Python `os.path.isdir` on the snapshot. -/
def isDir (w : CgWorld) (p : String) : Bool := (w.walkAt p).isSome

/-- `_ensure_cgroup_v2`: `RuntimeError` unless
`/sys/fs/cgroup/cgroup.controllers` exists. -/
def ensure_cgroup_v2 (w : CgWorld) : Except PyErr Unit :=
  if w.cgroupV2 then .ok () else .error .runtimeError

/-- The line loop of `_read_cg2_path_from_proc_cgroup`: the first line
starting with `0::` yields the stripped text after the separator. -/
def findCg2Line : List String → Option String
  | [] => none
  | line :: rest =>
    if strStarts line "0::" then some (pyStrip (pySplitOnce line "::"))
    else findCg2Line rest

/-- `_read_cg2_path_from_proc_cgroup(pid)`: only `FileNotFoundError` is
caught (yielding `None`); a `PermissionError` or other `OSError` on the
open propagates to the caller. -/
def read_cg2_path_from_proc_cgroup (w : CgWorld) (pid : String) :
    Except PyErr (Option String) :=
  match w.cgroupFile pid with
  | .fnf => .ok none
  | .perm => .error .permissionError
  | .oserr => .error .osError
  | .ok lines => .ok (findCg2Line lines)

/-- The candidate-gathering loop of `container_cg2_path`: for every
numeric `/proc` entry, read its cgroup v2 path; keep it when it is
non-empty, contains the lower-cased identifier, and its absolute
directory exists under the mount root. -/
def collectCandidates (w : CgWorld) (cid : String) :
    List String → Except PyErr (List String)
  | [] => .ok []
  | name :: rest =>
    if pyIsDigit name then
      match read_cg2_path_from_proc_cgroup w name with
      | .error e => .error e
      | .ok none => collectCandidates w cid rest
      | .ok (some cgpath) =>
        if cgpath = "" then collectCandidates w cid rest
        else if pyContains (pyLower cgpath) cid &&
            isDir w (pyJoin CG2_ROOT (lstripSlashes cgpath)) then
          match collectCandidates w cid rest with
          | .error e => .error e
          | .ok tl => .ok (cgpath :: tl)
        else collectCandidates w cid rest
    else collectCandidates w cid rest

/-- Python `min(x :: xs, key=len)`: the first element of least length. -/
def minByLen (x : String) (xs : List String) : String :=
  xs.foldl (fun best a => if a.length < best.length then a else best) x

/-- `container_cg2_path(container_id)`: require cgroup v2, collect the
qualifying candidates, fail with `FileNotFoundError` when there are
none, otherwise return the shortest (first-seen on ties). -/
def container_cg2_path (w : CgWorld) (container_id : String) :
    Except PyErr String :=
  match ensure_cgroup_v2 w with
  | .error e => .error e
  | .ok _ =>
    match collectCandidates w (pyLower container_id) w.procEntries with
    | .error e => .error e
    | .ok [] => .error .fileNotFoundError
    | .ok (x :: xs) => .ok (minByLen x xs)

/-- The line loop of `_read_pids_from_cgroup_dir`: keep `int(line)` for
every line whose stripped text is all digits. -/
def parsePidLines : List String → List Int
  | [] => []
  | line :: rest =>
    if pyIsDigit (pyStrip line) then
      (digitsToNat (pyStrip line).data : Int) :: parsePidLines rest
    else parsePidLines rest

/-- `_read_pids_from_cgroup_dir` given the outcome of opening that
directory's `cgroup.procs`: a missing file yields `[]`; a
`PermissionError` or other `OSError` is not caught and propagates. -/
def read_pids_from_cgroup_dir (procs : RRes (List String)) :
    Except PyErr (List Int) :=
  match procs with
  | .fnf => .ok []
  | .perm => .error .permissionError
  | .oserr => .error .osError
  | .ok lines => .ok (parsePidLines lines)

/-- The `for cur, dirs, files in os.walk(abs_root)` loop of
`_recursive_pids`, concatenating each visited node's pids. -/
def collectNodes : List (RRes (List String)) → Except PyErr (List Int)
  | [] => .ok []
  | procs :: rest =>
    match read_pids_from_cgroup_dir procs with
    | .error e => .error e
    | .ok hd =>
      match collectNodes rest with
      | .error e => .error e
      | .ok tl => .ok (hd ++ tl)

/-- Comparison used by `sorted(...)` on pid lists. -/
def leInt : Int → Int → Prop := fun a b => a ≤ b

instance : DecidableRel leInt := fun a b => inferInstanceAs (Decidable (a ≤ b))

instance : IsTotal Int leInt := ⟨fun a b => Int.le_total a b⟩

instance : IsTrans Int leInt := ⟨fun _ _ _ h1 h2 => le_trans h1 h2⟩

/-- `_recursive_pids` on the walked subtree: collect every node's pids,
then `sorted(set(all_pids))`. -/
def recursive_pids (nodes : List (RRes (List String))) :
    Except PyErr (List Int) :=
  match collectNodes nodes with
  | .error e => .error e
  | .ok l => .ok (List.insertionSort leInt l.dedup)

/-- `host_pids(container_id)`: resolve the cgroup path, re-check that
the absolute directory exists, and collect recursively. -/
def host_pids (w : CgWorld) (container_id : String) : Except PyErr (List Int) :=
  match container_cg2_path w container_id with
  | .error e => .error e
  | .ok cgpath =>
    match w.walkAt (pyJoin CG2_ROOT (lstripSlashes cgpath)) with
    | none => .error .fileNotFoundError
    | some nodes => recursive_pids nodes

/-- Does some `NSpid:` line of a status record have `"1"` as the last
whitespace-separated token of the whole line (`line.split()[-1]`)? -/
def nspidLastIsOne (lines : List String) : Bool :=
  lines.any fun l => strStarts l "NSpid:" && ((pySplit l).getLast? == some "1")

/-- The `for pid in host_pids(...)` loop of `host_pid_of_container_init`:
return the first pid whose status matches; a missing status file skips
the pid, while a `PermissionError` or other `OSError` propagates. -/
def initScan (w : CgWorld) : List Int → Except PyErr (Option Int)
  | [] => .ok none
  | p :: rest =>
    match w.status p with
    | .fnf => initScan w rest
    | .perm => .error .permissionError
    | .oserr => .error .osError
    | .ok lines =>
      if nspidLastIsOne lines then .ok (some p) else initScan w rest

/-- `host_pid_of_container_init(container_id)`. -/
def host_pid_of_container_init (w : CgWorld) (container_id : String) :
    Except PyErr (Option Int) :=
  match host_pids w container_id with
  | .error e => .error e
  | .ok pids => initScan w pids


/-! Derived predicates and concrete snapshots used by the development. -/

/-- Did this read raise (`FileNotFoundError`, `PermissionError` or
another `OSError`)? -/
def readFailed {α : Type} : RRes α → Bool
  | .ok _ => false
  | .fnf => true
  | .perm => true
  | .oserr => true

/-- Did the status-line loop deliver both a name and a pid? -/
def scanOk : Except PyErr (Option String × Option Int) → Bool
  | .ok (some _, some _) => true
  | _ => false

/-- OS-format well-formedness of one scanned entry, as Linux guarantees
for `/proc/<pid>/status` (a `Name:` field and a parseable `NSpid:`
field): whenever a digit entry in the reference namespace has a readable
status record, the line loop finds both fields without raising. -/
def entryWF (w : ProcWorld) (refNs e : String) : Bool :=
  !(pyIsDigit e) || !(w.nsPid e == RRes.ok refNs) ||
    (match w.status e with
     | .ok ls => scanOk (scanStatusLines ls none none)
     | _ => true)

/-- Are both per-entry pseudo-files the enumerator needs readable? -/
def entryReadable (w : ProcWorld) (e : String) : Bool :=
  !(readFailed (w.nsPid e)) && !(readFailed (w.status e))

/-- The namespace-local id an entry contributes to the enumerator's
result, if any. -/
def contribFst (w : ProcWorld) (refNs e : String) : Option Int :=
  match processEntry w refNs e with
  | .ok (some r) => some r.1
  | _ => none

/-- A host pid qualifies for the init locator: its status record is
readable and some `NSpid:` line ends in the token `"1"`. -/
def qualInit (w : CgWorld) (q : Int) : Prop :=
  ∃ ls, w.status q = .ok ls ∧ nspidLastIsOne ls = true

/-- Concrete cgroup snapshot (spec Scenarios B and C): two processes
whose cgroup v2 paths both contain the identifier, the shorter path
holding host pids 10 and 11 directly and 12 in a child node, and host
pid 10 being the container's init. -/
def cgB : CgWorld where
  cgroupV2 := true
  procEntries := ["100", "200"]
  cgroupFile := fun s =>
    if s = "100" then .ok ["0::/system.slice/docker-94860d9dd294.scope"]
    else if s = "200" then .ok ["0::/system.slice/docker-94860d9dd294.scope/buildkit"]
    else .fnf
  walkAt := fun p =>
    if p = "/sys/fs/cgroup/system.slice/docker-94860d9dd294.scope" then
      some [.ok ["10", "11"], .ok ["12"]]
    else if p = "/sys/fs/cgroup/system.slice/docker-94860d9dd294.scope/buildkit" then
      some [.ok ["12"]]
    else none
  status := fun p =>
    if p = 10 then .ok ["Name:\tinit", "NSpid:\t10\t1"]
    else if p = 11 then .ok ["Name:\tsh", "NSpid:\t11\t7"]
    else .fnf

/-- The node list of the Scenario C subtree: root `[10, 11]`, one child
`[12]`. -/
def cNodesC : List (RRes (List String)) := [.ok ["10", "11"], .ok ["12"]]

/-- Concrete process-table snapshot (spec Scenario A): three processes
in the reference namespace with container-local pids 1, 7, 9, plus one
non-numeric entry. -/
def pwA : ProcWorld where
  entries := ["1420372", "1420390", "1420402", "notpid"]
  nsPid := fun _ => .ok "pid:[4026532001]"
  status := fun e =>
    if e = "1420372" then .ok ["Name:\tinit", "NSpid:\t1420372\t1"]
    else if e = "1420390" then .ok ["Name:\tworker", "NSpid:\t1420390\t7"]
    else if e = "1420402" then .ok ["Name:\tworker2", "NSpid:\t1420402\t9"]
    else .fnf
  comm := fun _ => .fnf

/-- Concrete process-table snapshot in which the reference entry for pid
5 has vanished, the one for pid 6 is privilege-protected, and every
other namespace handle is readable while status records are not. -/
def pw8 : ProcWorld where
  entries := ["3"]
  nsPid := fun s => if s = "5" then .fnf else if s = "6" then .perm else .ok "ns"
  status := fun _ => .perm
  comm := fun _ => .fnf

/-- Concrete process-table snapshot whose single process has a malformed
third status line that the scan never reaches: the loop breaks at the
second line, once both `Name:` and `NSpid:` have been seen. -/
def pw9c : ProcWorld where
  entries := ["7"]
  nsPid := fun _ => .ok "ns"
  status := fun e =>
    if e = "7" then .ok ["Name: a", "NSpid: 1", "NSpid: xyz"] else .fnf
  comm := fun _ => .fnf

/-- Concrete process-table snapshot whose single process has a malformed
`NSpid:` line that the scan does reach. -/
def pw9w : ProcWorld where
  entries := ["8"]
  nsPid := fun _ => .ok "ns"
  status := fun e => if e = "8" then .ok ["NSpid: zz"] else .fnf
  comm := fun _ => .fnf

/-- Concrete cgroup snapshot in which the resolved subtree's only node
has a privilege-protected `cgroup.procs` file, and every status record
is privilege-protected. -/
def cg5 : CgWorld where
  cgroupV2 := true
  procEntries := ["9"]
  cgroupFile := fun s => if s = "9" then .ok ["0::/docker/x"] else .fnf
  walkAt := fun p => if p = "/sys/fs/cgroup/docker/x" then some [.perm] else none
  status := fun _ => .perm

/-! Helper lemmas about the enumerator's scan. -/

/-- The only exception the status-line loop can raise is `ValueError`. -/
theorem scanStatusLines_error_eq :
    ∀ (ls : List String) (nm : Option String) (cp : Option Int) (e : PyErr),
      scanStatusLines ls nm cp = .error e → e = .valueError := by
  intro ls
  induction ls with
  | nil =>
    intro nm cp e h
    exact absurd h (by simp [scanStatusLines])
  | cons line rest ih =>
    intro nm cp e h
    simp only [scanStatusLines] at h
    split at h
    · exact ih _ _ _ h
    · split at h
      · split at h
        · split at h
          · exact absurd h (by simp)
          · exact ih _ _ _ h
        · split at h
          · exact (Except.error.inj h).symm
          · rename_i v hv
            by_cases hn : nm.isSome = true
            · simp only [if_pos hn] at h
              exact absurd h (by simp)
            · simp only [if_neg hn] at h
              exact ih _ _ _ h
      · exact ih _ _ _ h

/-- The only exception the per-entry body can raise is `ValueError`. -/
theorem processEntry_error_eq (w : ProcWorld) (refNs entry : String) (e : PyErr)
    (h : processEntry w refNs entry = .error e) : e = .valueError := by
  unfold processEntry at h
  split at h
  · split at h <;> try exact absurd h (by simp)
    split at h
    · split at h <;> try exact absurd h (by simp)
      split at h
      · rename_i hs
        cases h
        exact scanStatusLines_error_eq _ _ _ _ hs
      · split at h
        · split at h <;> exact absurd h (by simp)
        · split at h <;> try exact absurd h (by simp)
          split at h <;> exact absurd h (by simp)
    · exact absurd h (by simp)
  · exact absurd h (by simp)

/-- Membership in the collected scan results: exactly the per-entry
contributions. -/
theorem scanEntries_mem (w : ProcWorld) (refNs : String) :
    ∀ (es : List String) (l : List (Int × String)),
      scanEntries w refNs es = .ok l →
      ∀ r, r ∈ l ↔ ∃ e ∈ es, processEntry w refNs e = .ok (some r) := by
  intro es
  induction es with
  | nil =>
    intro l h r
    simp only [scanEntries] at h
    cases h
    simp
  | cons e rest ih =>
    intro l h r
    simp only [scanEntries] at h
    split at h
    · exact absurd h (by simp)
    · rename_i hskip
      rw [ih _ h r]
      constructor
      · rintro ⟨e2, he2, hc⟩
        exact ⟨e2, List.mem_cons_of_mem _ he2, hc⟩
      · rintro ⟨e2, he2, hc⟩
        rcases List.mem_cons.mp he2 with rfl | hmem
        · rw [hskip] at hc
          exact absurd hc (by simp)
        · exact ⟨e2, hmem, hc⟩
    · rename_i r0 hr0
      split at h
      · exact absurd h (by simp)
      · rename_i tl htl
        cases h
        rw [List.mem_cons, ih _ htl r]
        constructor
        · rintro (rfl | ⟨e2, he2, hc⟩)
          · exact ⟨e, List.mem_cons_self e rest, hr0⟩
          · exact ⟨e2, List.mem_cons_of_mem _ he2, hc⟩
        · rintro ⟨e2, he2, hc⟩
          rcases List.mem_cons.mp he2 with rfl | hmem
          · rw [hr0] at hc
            cases hc
            exact Or.inl rfl
          · exact Or.inr ⟨e2, hmem, hc⟩

/-- A scan that raised did so through some entry's `ValueError`. -/
theorem scanEntries_error_eq (w : ProcWorld) (refNs : String) :
    ∀ (es : List String) (e : PyErr),
      scanEntries w refNs es = .error e → e = .valueError := by
  intro es
  induction es with
  | nil =>
    intro e h
    exact absurd h (by simp [scanEntries])
  | cons e2 rest ih =>
    intro e h
    simp only [scanEntries] at h
    split at h
    · rename_i herr
      cases h
      exact processEntry_error_eq _ _ _ _ herr
    · exact ih _ h
    · split at h
      · cases h
        exact ih _ (by assumption)
      · exact absurd h (by simp)

/-- An entry whose body raises makes the whole scan raise. -/
theorem scanEntries_error_of_mem (w : ProcWorld) (refNs : String) :
    ∀ (es : List String) (e : String) (err : PyErr),
      e ∈ es → processEntry w refNs e = .error err →
      ∃ err2, scanEntries w refNs es = .error err2 := by
  intro es
  induction es with
  | nil => intro e err h; simp at h
  | cons e2 rest ih =>
    intro e err hmem herr
    rcases List.mem_cons.mp hmem with rfl | hmem2
    · exact ⟨err, by simp only [scanEntries]; rw [herr]⟩
    · obtain ⟨err2, h2⟩ := ih e err hmem2 herr
      simp only [scanEntries]
      cases hpe : processEntry w refNs e2 with
      | error err3 => exact ⟨err3, rfl⟩
      | ok o =>
        cases o with
        | none => exact ⟨err2, h2⟩
        | some r => exact ⟨err2, by rw [h2]⟩

/-- When no entry's body raises, the scan succeeds. -/
theorem scanEntries_ok_of (w : ProcWorld) (refNs : String) :
    ∀ (es : List String),
      (∀ e ∈ es, ∀ err, processEntry w refNs e ≠ .error err) →
      ∃ l, scanEntries w refNs es = .ok l := by
  intro es
  induction es with
  | nil => intro _; exact ⟨[], rfl⟩
  | cons e rest ih =>
    intro hno
    obtain ⟨tl, htl⟩ := ih fun e2 h2 => hno e2 (List.mem_cons_of_mem _ h2)
    cases hpe : processEntry w refNs e with
    | error err => exact absurd hpe (hno e (List.mem_cons_self e rest) err)
    | ok o =>
      cases o with
      | none => exact ⟨tl, by simp only [scanEntries]; rw [hpe]; exact htl⟩
      | some r => exact ⟨r :: tl, by simp only [scanEntries]; rw [hpe, htl]⟩

/-- Dropping entries that contribute nothing does not change the scan. -/
theorem scanEntries_filter (w : ProcWorld) (refNs : String) (p : String → Bool) :
    ∀ (es : List String),
      (∀ e ∈ es, p e = false → processEntry w refNs e = .ok none) →
      scanEntries w refNs (es.filter p) = scanEntries w refNs es := by
  intro es
  induction es with
  | nil => intro _; rfl
  | cons e rest ih =>
    intro hdrop
    have ihr := ih fun e2 h2 => hdrop e2 (List.mem_cons_of_mem _ h2)
    cases hp : p e with
    | true =>
      rw [List.filter_cons_of_pos hp]
      simp only [scanEntries]
      rw [ihr]
    | false =>
      rw [List.filter_cons_of_neg (by simp [hp])]
      have hskip := hdrop e (List.mem_cons_self e rest) hp
      rw [ihr]
      conv_rhs => simp only [scanEntries]
      rw [hskip]

/-- A well-formed entry never makes the per-entry body raise. -/
theorem entryWF_no_error (w : ProcWorld) (refNs e : String)
    (hwf : entryWF w refNs e = true) :
    ∀ err, processEntry w refNs e ≠ .error err := by
  intro err h
  by_cases hd : pyIsDigit e = true
  · cases hns : w.nsPid e with
    | fnf => simp [processEntry, hd, hns] at h
    | perm => simp [processEntry, hd, hns] at h
    | oserr => simp [processEntry, hd, hns] at h
    | ok ns =>
      by_cases hns2 : ns = refNs
      · subst hns2
        cases hst : w.status e with
        | fnf => simp [processEntry, hd, hns, hst] at h
        | perm => simp [processEntry, hd, hns, hst] at h
        | oserr => simp [processEntry, hd, hns, hst] at h
        | ok ls =>
          have hsc : scanOk (scanStatusLines ls none none) = true := by
            simpa [entryWF, hd, hns, hst] using hwf
          cases hscan : scanStatusLines ls none none with
          | error e2 => rw [hscan] at hsc; simp [scanOk] at hsc
          | ok pr =>
            obtain ⟨nmo, cpo⟩ := pr
            cases nmo with
            | none => rw [hscan] at hsc; simp [scanOk] at hsc
            | some nm =>
              cases cpo with
              | none => rw [hscan] at hsc; simp [scanOk] at hsc
              | some cp => simp [processEntry, hd, hns, hst, hscan] at h
      · simp [processEntry, hd, hns, hns2] at h
  · simp [processEntry, hd] at h

/-- For a well-formed digit entry, contributing a result is the same as
being in the reference namespace with a readable status record. -/
theorem entryWF_contrib_iff (w : ProcWorld) (refNs e : String)
    (hwf : entryWF w refNs e = true) (hd : pyIsDigit e = true) :
    (∃ r, processEntry w refNs e = .ok (some r)) ↔
      (w.nsPid e = .ok refNs ∧ ∃ ls, w.status e = .ok ls) := by
  constructor
  · rintro ⟨r, hr⟩
    cases hns : w.nsPid e with
    | fnf => simp [processEntry, hd, hns] at hr
    | perm => simp [processEntry, hd, hns] at hr
    | oserr => simp [processEntry, hd, hns] at hr
    | ok ns =>
      by_cases hns2 : ns = refNs
      · subst hns2
        refine ⟨rfl, ?_⟩
        cases hst : w.status e with
        | fnf => simp [processEntry, hd, hns, hst] at hr
        | perm => simp [processEntry, hd, hns, hst] at hr
        | oserr => simp [processEntry, hd, hns, hst] at hr
        | ok ls => exact ⟨ls, rfl⟩
      · simp [processEntry, hd, hns, hns2] at hr
  · rintro ⟨hns, ls, hst⟩
    have hsc : scanOk (scanStatusLines ls none none) = true := by
      simpa [entryWF, hd, hns, hst] using hwf
    cases hscan : scanStatusLines ls none none with
    | error e2 => rw [hscan] at hsc; simp [scanOk] at hsc
    | ok pr =>
      obtain ⟨nmo, cpo⟩ := pr
      cases nmo with
      | none => rw [hscan] at hsc; simp [scanOk] at hsc
      | some nm =>
        cases cpo with
        | none => rw [hscan] at hsc; simp [scanOk] at hsc
        | some cp =>
          exact ⟨(cp, nm), by simp [processEntry, hd, hns, hst, hscan]⟩

/-- An entry with an unreadable namespace handle or status record is
always skipped. -/
theorem entryReadable_false_skip (w : ProcWorld) (refNs e : String)
    (h : entryReadable w e = false) : processEntry w refNs e = .ok none := by
  by_cases hd : pyIsDigit e = true
  · cases hns : w.nsPid e with
    | fnf => simp [processEntry, hd, hns]
    | perm => simp [processEntry, hd, hns]
    | oserr => simp [processEntry, hd, hns]
    | ok ns =>
      by_cases hns2 : ns = refNs
      · subst hns2
        have hst : readFailed (w.status e) = true := by
          simpa [entryReadable, hns, readFailed] using h
        cases hst2 : w.status e with
        | ok ls => rw [hst2] at hst; simp [readFailed] at hst
        | fnf => simp [processEntry, hd, hns, hst2]
        | perm => simp [processEntry, hd, hns, hst2]
        | oserr => simp [processEntry, hd, hns, hst2]
      · simp [processEntry, hd, hns, hns2]
  · simp [processEntry, hd]

/-- Distinct entries with pairwise-distinct contributed ids yield a
result list whose first components are pairwise distinct. -/
theorem scanEntries_pairwise_ne (w : ProcWorld) (refNs : String) :
    ∀ (es : List String) (l : List (Int × String)),
      es.Nodup →
      (∀ e1 ∈ es, ∀ e2 ∈ es, e1 ≠ e2 →
        contribFst w refNs e1 = none ∨
          contribFst w refNs e1 ≠ contribFst w refNs e2) →
      scanEntries w refNs es = .ok l →
      l.Pairwise (fun (a b : Int × String) => a.1 ≠ b.1) := by
  intro es
  induction es with
  | nil =>
    intro l _ _ h
    simp only [scanEntries] at h
    cases h
    simp
  | cons e rest ih =>
    intro l hnd hinj h
    have hinj2 : ∀ e1 ∈ rest, ∀ e2 ∈ rest, e1 ≠ e2 →
        contribFst w refNs e1 = none ∨
          contribFst w refNs e1 ≠ contribFst w refNs e2 :=
      fun e1 h1 e2 h2 h12 =>
        hinj e1 (List.mem_cons_of_mem _ h1) e2 (List.mem_cons_of_mem _ h2) h12
    simp only [scanEntries] at h
    split at h
    · exact absurd h (by simp)
    · exact ih _ (List.Nodup.of_cons hnd) hinj2 h
    · rename_i r hr
      split at h
      · exact absurd h (by simp)
      · rename_i tl htl
        cases h
        refine List.Pairwise.cons ?_ (ih _ (List.Nodup.of_cons hnd) hinj2 htl)
        intro r2 hr2
        obtain ⟨e2, he2, hc2⟩ := (scanEntries_mem w refNs rest tl htl r2).mp hr2
        have hne : e ≠ e2 := by
          rintro rfl
          exact (List.nodup_cons.mp hnd).1 he2
        rcases hinj e (List.mem_cons_self e rest) e2
            (List.mem_cons_of_mem _ he2) hne with hnone | hdiff
        · rw [contribFst, hr] at hnone
          simp at hnone
        · intro heq
          apply hdiff
          rw [contribFst, hr, contribFst, hc2]
          simp [heq]

/-! Helper lemmas about the cgroup path resolver. -/

/-- Python's first-minimum-by-length splits the scanned list into a
strictly longer front, the returned element, and a no-shorter back. -/
theorem minByLen_decomp :
    ∀ (xs : List String) (x : String),
      ∃ l1 l2, x :: xs = l1 ++ minByLen x xs :: l2 ∧
        (∀ q ∈ l1, (minByLen x xs).length < q.length) ∧
        (∀ q ∈ l2, (minByLen x xs).length ≤ q.length) := by
  intro xs
  induction xs with
  | nil =>
    intro x
    exact ⟨[], [], rfl, by simp, by simp⟩
  | cons a rest ih =>
    intro x
    by_cases hc : a.length < x.length
    · have hm : minByLen x (a :: rest) = minByLen a rest := by
        simp [minByLen, hc]
      obtain ⟨l1, l2, hdec, hlt, hle⟩ := ih a
      have hma : (minByLen a rest).length ≤ a.length := by
        cases l1 with
        | nil =>
          simp only [List.nil_append] at hdec
          injection hdec with h1 _
          rw [← h1]
        | cons b bs =>
          simp only [List.cons_append] at hdec
          injection hdec with h1 _
          have hb := hlt b (List.mem_cons_self b bs)
          rw [← h1] at hb
          exact le_of_lt hb
      refine ⟨x :: l1, l2, ?_, ?_, ?_⟩
      · rw [hm]
        simp only [List.cons_append]
        rw [← hdec]
      · intro q hq
        rcases List.mem_cons.mp hq with rfl | hq2
        · rw [hm]
          exact lt_of_le_of_lt hma hc
        · rw [hm]
          exact hlt q hq2
      · intro q hq
        rw [hm]
        exact hle q hq
    · have hm : minByLen x (a :: rest) = minByLen x rest := by
        simp [minByLen, hc]
      obtain ⟨l1, l2, hdec, hlt, hle⟩ := ih x
      have hxa : x.length ≤ a.length := le_of_not_lt hc
      cases l1 with
      | nil =>
        simp only [List.nil_append] at hdec
        injection hdec with h1 h2
        refine ⟨[], a :: l2, ?_, by simp, ?_⟩
        · rw [hm]
          simp only [List.nil_append]
          rw [← h1, ← h2]
        · intro q hq
          rcases List.mem_cons.mp hq with rfl | hq2
          · rw [hm, ← h1]
            exact hxa
          · rw [hm]
            exact hle q hq2
      | cons b bs =>
        simp only [List.cons_append] at hdec
        injection hdec with h1 h2
        refine ⟨x :: a :: bs, l2, ?_, ?_, ?_⟩
        · rw [hm]
          simp only [List.cons_append]
          rw [← h2]
        · intro q hq
          have hminx : (minByLen x rest).length < x.length := by
            have hb := hlt b (List.mem_cons_self b bs)
            rw [← h1] at hb
            exact hb
          rcases List.mem_cons.mp hq with rfl | hq2
          · rw [hm]
            exact hminx
          · rcases List.mem_cons.mp hq2 with rfl | hq3
            · rw [hm]
              exact lt_of_lt_of_le hminx hxa
            · rw [hm]
              exact hlt q (List.mem_cons_of_mem _ hq3)
        · intro q hq
          rw [hm]
          exact hle q hq

/-- The returned minimum is one of the scanned candidates. -/
theorem minByLen_mem (xs : List String) (x : String) :
    minByLen x xs ∈ x :: xs := by
  obtain ⟨l1, l2, hdec, _, _⟩ := minByLen_decomp xs x
  rw [hdec]
  exact List.mem_append_right l1 (List.mem_cons_self _ _)

/-- Every collected candidate contains the identifier and has an
existing absolute directory under the cgroup mount root. -/
theorem collectCandidates_qualify (w : CgWorld) (cid : String) :
    ∀ (es : List String) (cands : List String),
      collectCandidates w cid es = .ok cands →
      ∀ q ∈ cands,
        pyContains (pyLower q) cid = true ∧
        isDir w (pyJoin CG2_ROOT (lstripSlashes q)) = true := by
  intro es
  induction es with
  | nil =>
    intro cands h q hq
    simp only [collectCandidates] at h
    cases h
    simp at hq
  | cons name rest ih =>
    intro cands h q hq
    simp only [collectCandidates] at h
    split at h
    · split at h
      · exact absurd h (by simp)
      · exact ih _ h q hq
      · split at h
        · exact ih _ h q hq
        · split at h
          · rename_i hqual
            split at h
            · exact absurd h (by simp)
            · rename_i tl htl
              cases h
              rcases List.mem_cons.mp hq with rfl | hq2
              · exact ⟨(Bool.and_eq_true _ _).mp hqual |>.1,
                  (Bool.and_eq_true _ _).mp hqual |>.2⟩
              · exact ih _ htl q hq2
          · exact ih _ h q hq
    · exact ih _ h q hq

/-- Shape of a successful resolution: the first-minimum over a nonempty
candidate list. -/
theorem container_cg2_path_shape (w : CgWorld) (cid p : String)
    (h : container_cg2_path w cid = .ok p) :
    ∃ x xs, collectCandidates w (pyLower cid) w.procEntries = .ok (x :: xs) ∧
      p = minByLen x xs := by
  unfold container_cg2_path at h
  split at h
  · exact absurd h (by simp)
  · split at h
    · exact absurd h (by simp)
    · exact absurd h (by simp)
    · rename_i x xs hcands
      cases h
      exact ⟨x, xs, hcands, rfl⟩

/-! Helper lemmas about the collector and the init locator. -/

/-- Membership in the parsed pid lines: exactly the values of the
digits-only stripped lines. -/
theorem parsePidLines_mem :
    ∀ (lines : List String) (p : Int),
      p ∈ parsePidLines lines ↔
        ∃ line ∈ lines, pyIsDigit (pyStrip line) = true ∧
          p = (digitsToNat (pyStrip line).data : Int) := by
  intro lines
  induction lines with
  | nil => intro p; simp [parsePidLines]
  | cons line rest ih =>
    intro p
    simp only [parsePidLines]
    by_cases hd : pyIsDigit (pyStrip line) = true
    · rw [if_pos hd]
      constructor
      · intro hp
        rcases List.mem_cons.mp hp with rfl | hp2
        · exact ⟨line, List.mem_cons_self _ _, hd, rfl⟩
        · obtain ⟨l2, hl2, hd2, hv⟩ := (ih p).mp hp2
          exact ⟨l2, List.mem_cons_of_mem _ hl2, hd2, hv⟩
      · rintro ⟨l2, hl2, hd2, hv⟩
        rcases List.mem_cons.mp hl2 with rfl | hl3
        · exact List.mem_cons.mpr (Or.inl hv)
        · exact List.mem_cons.mpr (Or.inr ((ih p).mpr ⟨l2, hl3, hd2, hv⟩))
    · rw [if_neg hd, ih p]
      constructor
      · rintro ⟨l2, hl2, hd2, hv⟩
        exact ⟨l2, List.mem_cons_of_mem _ hl2, hd2, hv⟩
      · rintro ⟨l2, hl2, hd2, hv⟩
        rcases List.mem_cons.mp hl2 with rfl | hl3
        · exact absurd hd2 hd
        · exact ⟨l2, hl3, hd2, hv⟩

/-- Membership in the concatenated walk results: contributed by some
visited node's successful read. -/
theorem collectNodes_mem :
    ∀ (nodes : List (RRes (List String))) (L : List Int),
      collectNodes nodes = .ok L →
      ∀ p, p ∈ L ↔ ∃ procs ∈ nodes, ∃ pl,
        read_pids_from_cgroup_dir procs = .ok pl ∧ p ∈ pl := by
  intro nodes
  induction nodes with
  | nil =>
    intro L h p
    simp only [collectNodes] at h
    cases h
    simp
  | cons procs rest ih =>
    intro L h p
    simp only [collectNodes] at h
    split at h
    · exact absurd h (by simp)
    · rename_i hd hhd
      split at h
      · exact absurd h (by simp)
      · rename_i tl htl
        cases h
        simp only [List.mem_append]
        constructor
        · rintro (hp | hp)
          · exact ⟨procs, List.mem_cons_self _ _, hd, hhd, hp⟩
          · obtain ⟨pr2, hpr2, pl, hpl, hp2⟩ := (ih _ htl p).mp hp
            exact ⟨pr2, List.mem_cons_of_mem _ hpr2, pl, hpl, hp2⟩
        · rintro ⟨pr2, hpr2, pl, hpl, hp2⟩
          rcases List.mem_cons.mp hpr2 with rfl | hpr3
          · rw [hhd] at hpl
            cases hpl
            exact Or.inl hp2
          · exact Or.inr ((ih _ htl p).mpr ⟨pr2, hpr3, pl, hpl, hp2⟩)

/-- The collector's output is strictly ascending. -/
theorem recursive_pids_sorted (nodes : List (RRes (List String))) (l : List Int)
    (h : recursive_pids nodes = .ok l) :
    l.Pairwise (fun a b : Int => a < b) := by
  unfold recursive_pids at h
  split at h
  · exact absurd h (by simp)
  · rename_i L hL
    cases h
    have hsorted : List.Sorted (fun a b : Int => a ≤ b)
        (List.insertionSort leInt L.dedup) :=
      List.sorted_insertionSort leInt L.dedup
    have hnodup : (List.insertionSort leInt L.dedup).Nodup :=
      ((List.perm_insertionSort leInt L.dedup).symm).nodup (List.nodup_dedup L)
    exact List.Sorted.lt_of_le hsorted hnodup

/-- Membership in the collector's output. -/
theorem recursive_pids_mem (nodes : List (RRes (List String))) (l : List Int)
    (h : recursive_pids nodes = .ok l) :
    ∀ p, p ∈ l ↔ ∃ procs ∈ nodes, ∃ pl,
      read_pids_from_cgroup_dir procs = .ok pl ∧ p ∈ pl := by
  unfold recursive_pids at h
  split at h
  · exact absurd h (by simp)
  · rename_i L hL
    cases h
    intro p
    rw [List.mem_insertionSort, List.mem_dedup]
    exact collectNodes_mem nodes L hL p

/-- Shape of a successful `host_pids` call. -/
theorem host_pids_shape (w : CgWorld) (cid : String) (l : List Int)
    (h : host_pids w cid = .ok l) :
    ∃ cg nodes, container_cg2_path w cid = .ok cg ∧
      w.walkAt (pyJoin CG2_ROOT (lstripSlashes cg)) = some nodes ∧
      recursive_pids nodes = .ok l := by
  unfold host_pids at h
  split at h
  · exact absurd h (by simp)
  · rename_i cg hcg
    split at h
    · exact absurd h (by simp)
    · rename_i nodes hnodes
      exact ⟨cg, nodes, hcg, hnodes, h⟩

/-- On a strictly ascending pid list, the init loop returns the least
qualifying pid, or `none` when no pid qualifies; unreadable-status pids
never qualify. -/
theorem initScan_spec (w : CgWorld) :
    ∀ (pids : List Int), pids.Pairwise (fun a b : Int => a < b) →
      ∀ r, initScan w pids = .ok r →
        ((∀ p, r = some p → p ∈ pids ∧ qualInit w p ∧
            ∀ q ∈ pids, q < p → ¬ qualInit w q) ∧
          (r = none → ∀ q ∈ pids, ¬ qualInit w q)) := by
  intro pids
  induction pids with
  | nil =>
    intro _ r h
    simp only [initScan] at h
    cases h
    constructor
    · intro p hp
      exact absurd hp (by simp)
    · intro _ q hq
      simp at hq
  | cons p0 rest ih =>
    intro hsorted r h
    have hlt : ∀ q ∈ rest, p0 < q := (List.pairwise_cons.mp hsorted).1
    have ihs := ih (List.Pairwise.of_cons hsorted)
    simp only [initScan] at h
    cases hst : w.status p0 with
    | fnf =>
      simp only [hst] at h
      obtain ⟨h1, h2⟩ := ihs r h
      have hnq : ¬ qualInit w p0 := by
        rintro ⟨ls, hls, _⟩
        rw [hst] at hls
        cases hls
      constructor
      · intro p hp
        obtain ⟨hmem, hq, hfirst⟩ := h1 p hp
        refine ⟨List.mem_cons_of_mem _ hmem, hq, ?_⟩
        intro q hqmem hqlt
        rcases List.mem_cons.mp hqmem with rfl | hq2
        · exact hnq
        · exact hfirst q hq2 hqlt
      · intro hr q hq
        rcases List.mem_cons.mp hq with rfl | hq2
        · exact hnq
        · exact h2 hr q hq2
    | perm =>
      simp only [hst] at h
      exact absurd h (by simp)
    | oserr =>
      simp only [hst] at h
      exact absurd h (by simp)
    | ok ls =>
      simp only [hst] at h
      by_cases hone : nspidLastIsOne ls = true
      · rw [if_pos hone] at h
        cases h
        constructor
        · intro p hp
          injection hp with hp2
          subst hp2
          refine ⟨List.mem_cons_self _ _, ⟨ls, hst, hone⟩, ?_⟩
          intro q hq hqlt
          rcases List.mem_cons.mp hq with rfl | hq2
          · exact absurd hqlt (lt_irrefl _)
          · exact absurd hqlt (not_lt.mpr (le_of_lt (hlt q hq2)))
        · intro hr
          exact absurd hr (by simp)
      · rw [if_neg hone] at h
        obtain ⟨h1, h2⟩ := ihs r h
        have hnq : ¬ qualInit w p0 := by
          rintro ⟨ls2, hls2, hone2⟩
          rw [hst] at hls2
          cases hls2
          exact hone hone2
        constructor
        · intro p hp
          obtain ⟨hmem, hq, hfirst⟩ := h1 p hp
          refine ⟨List.mem_cons_of_mem _ hmem, hq, ?_⟩
          intro q hqmem hqlt
          rcases List.mem_cons.mp hqmem with rfl | hq2
          · exact hnq
          · exact hfirst q hq2 hqlt
        · intro hr q hq
          rcases List.mem_cons.mp hq with rfl | hq2
          · exact hnq
          · exact h2 hr q hq2

/-- Replacing the directory listing leaves the per-entry scan unchanged:
the scan consults only the per-entry read functions. -/
theorem scanEntries_world_entries (w : ProcWorld) (es2 : List String)
    (refNs : String) :
    ∀ es, scanEntries { w with entries := es2 } refNs es =
      scanEntries w refNs es := by
  intro es
  induction es with
  | nil => rfl
  | cons e rest ih =>
    simp only [scanEntries]
    have hpe : processEntry { w with entries := es2 } refNs e =
        processEntry w refNs e := rfl
    rw [hpe, ih]

/-! The claims. -/

/-- C1: whenever the cgroup path resolver succeeds, it returns a
qualifying candidate of minimal path length, and on ties the first-seen
one in scan order: the collected candidate list splits into a strictly
longer front, the returned path, and a no-shorter back. -/
theorem claim_C1 (w : CgWorld) (cid p : String)
    (h : container_cg2_path w cid = .ok p) :
    ∃ cands, collectCandidates w (pyLower cid) w.procEntries = .ok cands ∧
      ∃ l1 l2, cands = l1 ++ p :: l2 ∧
        (∀ q ∈ l1, p.length < q.length) ∧
        (∀ q ∈ l2, p.length ≤ q.length) := by
  obtain ⟨x, xs, hcands, hp⟩ := container_cg2_path_shape w cid p h
  obtain ⟨l1, l2, hdec, hlt, hle⟩ := minByLen_decomp xs x
  subst hp
  exact ⟨x :: xs, hcands, l1, l2, hdec, hlt, hle⟩

/-- Witness for C1 at the Scenario B snapshot: the shorter of the two
qualifying docker paths is returned. -/
theorem claim_C1_witness :
    ∃ cands, collectCandidates cgB (pyLower "94860d9dd294")
        cgB.procEntries = .ok cands ∧
      ∃ l1 l2, cands = l1 ++ "/system.slice/docker-94860d9dd294.scope" :: l2 ∧
        (∀ q ∈ l1,
          "/system.slice/docker-94860d9dd294.scope".length < q.length) ∧
        (∀ q ∈ l2,
          "/system.slice/docker-94860d9dd294.scope".length ≤ q.length) :=
  claim_C1 cgB "94860d9dd294" "/system.slice/docker-94860d9dd294.scope"
    (by decide)

/-- C2: a successful collector run returns exactly the union, over every
node of the walked subtree, of that node's direct process-list contents,
deduplicated and sorted strictly ascending; and a successful `host_pids`
returns verbatim such a collector result. -/
theorem claim_C2 :
    (∀ (nodes : List (RRes (List String))) (l : List Int),
      recursive_pids nodes = .ok l →
        ((∀ p : Int, p ∈ l ↔ ∃ procs ∈ nodes, ∃ pl,
            read_pids_from_cgroup_dir procs = .ok pl ∧ p ∈ pl) ∧
          l.Pairwise (fun a b : Int => a < b))) ∧
    (∀ (w : CgWorld) (cid : String) (l : List Int),
      host_pids w cid = .ok l → ∃ nodes, recursive_pids nodes = .ok l) := by
  constructor
  · intro nodes l h
    exact ⟨recursive_pids_mem nodes l h, recursive_pids_sorted nodes l h⟩
  · intro w cid l h
    obtain ⟨cg, nodes, _, _, hrec⟩ := host_pids_shape w cid l h
    exact ⟨nodes, hrec⟩

/-- Witness for C2 at the Scenario C subtree: root `[10, 11]` plus child
`[12]` yields `[10, 11, 12]`. -/
theorem claim_C2_witness :
    ((∀ p : Int, p ∈ ([10, 11, 12] : List Int) ↔ ∃ procs ∈ cNodesC, ∃ pl,
        read_pids_from_cgroup_dir procs = .ok pl ∧ p ∈ pl) ∧
      ([10, 11, 12] : List Int).Pairwise (fun a b : Int => a < b)) ∧
    (∃ nodes, recursive_pids nodes = .ok ([10, 11, 12] : List Int)) :=
  ⟨claim_C2.1 cNodesC [10, 11, 12] (by decide),
   claim_C2.2 cgB "94860d9dd294" [10, 11, 12] (by decide)⟩

/-- C6: a successful resolution returns only a path whose absolute
directory under the cgroup mount root existed when checked during the
scan. -/
theorem claim_C6 (w : CgWorld) (cid p : String)
    (h : container_cg2_path w cid = .ok p) :
    isDir w (pyJoin CG2_ROOT (lstripSlashes p)) = true := by
  obtain ⟨x, xs, hcands, hp⟩ := container_cg2_path_shape w cid p h
  have hmem : p ∈ x :: xs := hp ▸ minByLen_mem xs x
  exact (collectCandidates_qualify w (pyLower cid) w.procEntries
    (x :: xs) hcands p hmem).2

/-- Witness for C6 at the Scenario B snapshot. -/
theorem claim_C6_witness :
    isDir cgB
      (pyJoin CG2_ROOT
        (lstripSlashes "/system.slice/docker-94860d9dd294.scope")) = true :=
  claim_C6 cgB "94860d9dd294" "/system.slice/docker-94860d9dd294.scope"
    (by decide)

/-- C10: the process-list reader keeps exactly the lines whose stripped
text is all decimal digits, so every returned element is the nonnegative
value parsed from such a line, and every other line contributes
nothing. -/
theorem claim_C10 (lines : List String) (l : List Int)
    (h : read_pids_from_cgroup_dir (.ok lines) = .ok l) :
    (∀ p ∈ l, 0 ≤ p) ∧
    (∀ p : Int, p ∈ l ↔ ∃ line ∈ lines, pyIsDigit (pyStrip line) = true ∧
      p = (digitsToNat (pyStrip line).data : Int)) := by
  have hl : parsePidLines lines = l := by
    simpa [read_pids_from_cgroup_dir] using h
  subst hl
  refine ⟨?_, parsePidLines_mem lines⟩
  intro p hp
  obtain ⟨line, _, _, hv⟩ := (parsePidLines_mem lines p).mp hp
  rw [hv]
  exact Int.natCast_nonneg _

/-- Witness for C10: blanks, negatives and garbage lines are ignored. -/
theorem claim_C10_witness :
    (∀ p ∈ ([10, 11] : List Int), 0 ≤ p) ∧
    (∀ p : Int, p ∈ ([10, 11] : List Int) ↔
      ∃ line ∈ ["10", " 11 ", "", "-3", "abc"],
        pyIsDigit (pyStrip line) = true ∧
        p = (digitsToNat (pyStrip line).data : Int)) :=
  claim_C10 ["10", " 11 ", "", "-3", "abc"] [10, 11] (by decide)

/-- C3: when the reference namespace handle is readable and the scanned
status records are well-formed (Linux always writes `Name:` and a
parseable `NSpid:`), the enumerator succeeds; its output holds exactly
the per-entry contributions; a digit entry contributes exactly when it
is in the reference namespace with a readable status record; and
removing the unreadable entries from the process table leaves the output
unchanged. -/
theorem claim_C3 (w : ProcWorld) (pid : Nat) (refNs : String)
    (href : w.nsPid (toString pid) = .ok refNs)
    (hwf : ∀ e ∈ w.entries, entryWF w refNs e = true) :
    ∃ l, list_container_pids_and_names w pid = .ok l ∧
      (∀ r, r ∈ l ↔ ∃ e ∈ w.entries, processEntry w refNs e = .ok (some r)) ∧
      (∀ e ∈ w.entries, pyIsDigit e = true →
        ((∃ r, processEntry w refNs e = .ok (some r)) ↔
          (w.nsPid e = .ok refNs ∧ ∃ ls, w.status e = .ok ls))) ∧
      list_container_pids_and_names
        { w with entries := w.entries.filter (entryReadable w) } pid =
        list_container_pids_and_names w pid := by
  have hnoerr : ∀ e ∈ w.entries, ∀ err, processEntry w refNs e ≠ .error err :=
    fun e he => entryWF_no_error w refNs e (hwf e he)
  obtain ⟨l0, hl0⟩ := scanEntries_ok_of w refNs w.entries hnoerr
  have hlist : list_container_pids_and_names w pid =
      .ok (List.insertionSort leFst l0) := by
    simp only [list_container_pids_and_names, href, hl0]
  refine ⟨List.insertionSort leFst l0, hlist, ?_, ?_, ?_⟩
  · intro r
    rw [List.mem_insertionSort]
    exact scanEntries_mem w refNs w.entries l0 hl0 r
  · intro e he hd
    exact entryWF_contrib_iff w refNs e (hwf e he) hd
  · have hfilter : scanEntries w refNs (w.entries.filter (entryReadable w)) =
        scanEntries w refNs w.entries :=
      scanEntries_filter w refNs (entryReadable w) w.entries
        (fun e _ hf => entryReadable_false_skip w refNs e hf)
    have h1 : scanEntries
        { w with entries := w.entries.filter (entryReadable w) } refNs
        (w.entries.filter (entryReadable w)) = Except.ok l0 := by
      rw [scanEntries_world_entries w _ refNs, hfilter, hl0]
    have hw2 : list_container_pids_and_names
        { w with entries := w.entries.filter (entryReadable w) } pid =
        .ok (List.insertionSort leFst l0) := by
      simp only [list_container_pids_and_names, href, h1]
    rw [hw2, hlist]

/-- Witness for C3 at the Scenario A snapshot. -/
theorem claim_C3_witness :
    ∃ l, list_container_pids_and_names pwA 1420372 = .ok l ∧
      (∀ r, r ∈ l ↔ ∃ e ∈ pwA.entries,
        processEntry pwA "pid:[4026532001]" e = .ok (some r)) ∧
      (∀ e ∈ pwA.entries, pyIsDigit e = true →
        ((∃ r, processEntry pwA "pid:[4026532001]" e = .ok (some r)) ↔
          (pwA.nsPid e = .ok "pid:[4026532001]" ∧
            ∃ ls, pwA.status e = .ok ls))) ∧
      list_container_pids_and_names
        { pwA with entries := pwA.entries.filter (entryReadable pwA) }
        1420372 =
        list_container_pids_and_names pwA 1420372 :=
  claim_C3 pwA 1420372 "pid:[4026532001]" (by decide) (by decide)

/-- C7: under the kernel invariant that distinct live processes in one
namespace carry distinct namespace-local ids (distinct entries never
contribute equal ids), the enumerator's output is strictly ascending in
the namespace-local id, hence free of duplicate ids. -/
theorem claim_C7 (w : ProcWorld) (pid : Nat) (refNs : String)
    (l : List (Int × String))
    (href : w.nsPid (toString pid) = .ok refNs)
    (hnd : w.entries.Nodup)
    (hinj : ∀ e1 ∈ w.entries, ∀ e2 ∈ w.entries, e1 ≠ e2 →
      contribFst w refNs e1 = none ∨
        contribFst w refNs e1 ≠ contribFst w refNs e2)
    (hl : list_container_pids_and_names w pid = .ok l) :
    l.Pairwise (fun (a b : Int × String) => a.1 < b.1) := by
  simp only [list_container_pids_and_names, href] at hl
  cases hscan : scanEntries w refNs w.entries with
  | error e =>
    rw [hscan] at hl
    exact absurd hl (by simp)
  | ok l0 =>
    rw [hscan] at hl
    cases hl
    have hne := scanEntries_pairwise_ne w refNs w.entries l0 hnd hinj hscan
    have hle : (List.insertionSort leFst l0).Pairwise leFst :=
      List.sorted_insertionSort leFst l0
    have hsymm : ∀ {a b : Int × String}, a.1 ≠ b.1 → b.1 ≠ a.1 :=
      fun h => Ne.symm h
    have hne2 : (List.insertionSort leFst l0).Pairwise
        (fun (a b : Int × String) => a.1 ≠ b.1) :=
      ((List.perm_insertionSort leFst l0).pairwise_iff hsymm).mpr hne
    exact (hle.and hne2).imp fun h => lt_of_le_of_ne h.1 h.2

/-- Witness for C7 at the Scenario A snapshot. -/
theorem claim_C7_witness :
    ([((1 : Int), "init"), (7, "worker"), (9, "worker2")]).Pairwise
      (fun (a b : Int × String) => a.1 < b.1) :=
  claim_C7 pwA 1420372 "pid:[4026532001]"
    [(1, "init"), (7, "worker"), (9, "worker2")]
    (by decide) (by decide) (by decide) (by decide)

/-- C8: a vanished reference entry fails the call with the raised
`ValueError` (the spec's `NotFound`), a privilege-protected reference
handle fails it with `PermissionError`; once the reference resolves, an
unreadable non-reference entry is skipped, never failing the call. -/
theorem claim_C8 (w : ProcWorld) (pid : Nat) :
    (w.nsPid (toString pid) = .fnf →
      list_container_pids_and_names w pid = .error .valueError) ∧
    (w.nsPid (toString pid) = .perm →
      list_container_pids_and_names w pid = .error .permissionError) ∧
    (∀ refNs e, w.nsPid (toString pid) = .ok refNs →
      readFailed (w.nsPid e) = true ∨ readFailed (w.status e) = true →
      processEntry w refNs e = .ok none) := by
  refine ⟨?_, ?_, ?_⟩
  · intro h
    simp [list_container_pids_and_names, h]
  · intro h
    simp [list_container_pids_and_names, h]
  · intro refNs e _ h
    refine entryReadable_false_skip w refNs e ?_
    rcases h with h | h <;> simp [entryReadable, h]

/-- Witness for C8: missing reference, privilege-protected reference,
and a skipped unreadable non-reference entry. -/
theorem claim_C8_witness :
    list_container_pids_and_names pw8 5 = .error .valueError ∧
    list_container_pids_and_names pw8 6 = .error .permissionError ∧
    processEntry pw8 "ns" "4" = .ok none :=
  ⟨(claim_C8 pw8 5).1 (by decide),
   (claim_C8 pw8 6).2.1 (by decide),
   (claim_C8 pw8 7).2.2 "ns" "4" (by decide) (Or.inr (by decide))⟩

/-- C4: a successful init-locator call yields either the least resolved
host pid whose readable status record has an `NSpid:` line ending in the
token `"1"` (the first such pid in ascending iteration order), or the
explicit not-found outcome `none` when no resolved pid qualifies —
absence is an ordinary result, not a raised error. -/
theorem claim_C4 (w : CgWorld) (cid : String) (r : Option Int)
    (h : host_pid_of_container_init w cid = .ok r) :
    ∃ pids, host_pids w cid = .ok pids ∧
      ((∃ p, r = some p ∧ p ∈ pids ∧ qualInit w p ∧
          ∀ q ∈ pids, q < p → ¬ qualInit w q) ∨
        (r = none ∧ ∀ q ∈ pids, ¬ qualInit w q)) := by
  unfold host_pid_of_container_init at h
  split at h
  · exact absurd h (by simp)
  · rename_i pids hpids
    have hsorted : pids.Pairwise (fun a b : Int => a < b) := by
      obtain ⟨cg, nodes, _, _, hrec⟩ := host_pids_shape w cid pids hpids
      exact recursive_pids_sorted nodes pids hrec
    obtain ⟨h1, h2⟩ := initScan_spec w pids hsorted r h
    refine ⟨pids, hpids, ?_⟩
    cases r with
    | none => exact Or.inr ⟨rfl, h2 rfl⟩
    | some p =>
      obtain ⟨hmem, hq, hfirst⟩ := h1 p rfl
      exact Or.inl ⟨p, rfl, hmem, hq, hfirst⟩

/-- Witness for C4 at the Scenario B/C snapshot: host pid 10 is the
container's init. -/
theorem claim_C4_witness :
    ∃ pids, host_pids cgB "94860d9dd294" = .ok pids ∧
      ((∃ p, (some 10 : Option Int) = some p ∧ p ∈ pids ∧ qualInit cgB p ∧
          ∀ q ∈ pids, q < p → ¬ qualInit cgB q) ∨
        ((some 10 : Option Int) = none ∧ ∀ q ∈ pids, ¬ qualInit cgB q)) :=
  claim_C4 cgB "94860d9dd294" (some 10) (by decide)

/-- Counterexample to C5 as stated: a per-entry permission denial on a
node's process-list read is not swallowed — it fails the whole collector
call, and likewise a privilege-protected status record fails the init
loop. -/
theorem claim_C5_counterexample :
    host_pids cg5 "x" = .error .permissionError ∧
    initScan cg5 [7] = .error .permissionError := by decide

/-- C5 amended: the enumerator's per-process scan swallows vanished
entries, missing files and generic OS-level failures including
permission denial; the resolver's cgroup-record scan, the collector's
process-list reads, and the init locator's status reads swallow only the
missing-file condition, while a permission denial there propagates to
the caller. -/
theorem claim_C5_amended :
    (∀ (w : ProcWorld) (refNs e : String),
        readFailed (w.nsPid e) = true ∨ readFailed (w.status e) = true →
        processEntry w refNs e = .ok none) ∧
    (∀ (w : CgWorld) (p : String), w.cgroupFile p = .fnf →
        read_cg2_path_from_proc_cgroup w p = .ok none) ∧
    (∀ (w : CgWorld) (p : String), w.cgroupFile p = .perm →
        read_cg2_path_from_proc_cgroup w p = .error .permissionError) ∧
    read_pids_from_cgroup_dir .fnf = .ok [] ∧
    read_pids_from_cgroup_dir .perm = .error .permissionError ∧
    (∀ (w : CgWorld) (p : Int) (rest : List Int), w.status p = .fnf →
        initScan w (p :: rest) = initScan w rest) ∧
    (∀ (w : CgWorld) (p : Int) (rest : List Int), w.status p = .perm →
        initScan w (p :: rest) = .error .permissionError) := by
  refine ⟨?_, ?_, ?_, rfl, rfl, ?_, ?_⟩
  · intro w refNs e h
    refine entryReadable_false_skip w refNs e ?_
    rcases h with h | h <;> simp [entryReadable, h]
  · intro w p h
    simp [read_cg2_path_from_proc_cgroup, h]
  · intro w p h
    simp [read_cg2_path_from_proc_cgroup, h]
  · intro w p rest h
    simp [initScan, h]
  · intro w p rest h
    simp [initScan, h]

/-- Witness for the amended C5: a skipped unreadable enumerator entry, a
vanished cgroup record yielding `None`, a skipped vanished status
record, and a propagating privilege failure. -/
theorem claim_C5_witness :
    processEntry pw8 "ns" "3" = .ok none ∧
    read_cg2_path_from_proc_cgroup cg5 "7" = .ok none ∧
    initScan cgB (99 :: []) = initScan cgB [] ∧
    initScan cg5 (7 :: []) = .error .permissionError :=
  ⟨claim_C5_amended.1 pw8 "ns" "3" (Or.inr (by decide)),
   claim_C5_amended.2.1 cg5 "7" (by decide),
   claim_C5_amended.2.2.2.2.2.1 cgB 99 [] (by decide),
   claim_C5_amended.2.2.2.2.2.2 cg5 7 [] (by decide)⟩

/-- Counterexample to C9 as stated: a status record containing an
`NSpid:` line whose last token is not a decimal integer does not abort
the scan when the loop has already broken — here `Name:` and a valid
`NSpid:` line precede it, so the call succeeds. -/
theorem claim_C9_counterexample :
    pw9c.status "7" = .ok ["Name: a", "NSpid: 1", "NSpid: xyz"] ∧
    (pySplit "NSpid: xyz").getLast? = some "xyz" ∧
    pyIntTok "xyz" = none ∧
    list_container_pids_and_names pw9c 7 = .ok [(1, "a")] := by decide

/-- C9 amended: when the status-line loop of a scanned same-namespace
digit entry actually reaches a malformed `NSpid:` token (before both
fields are found), the resulting `ValueError` is not caught by the
per-entry handlers and aborts the whole enumerator call. -/
theorem claim_C9_amended (w : ProcWorld) (pid : Nat) (refNs e : String)
    (ls : List String)
    (href : w.nsPid (toString pid) = .ok refNs)
    (he : e ∈ w.entries) (hd : pyIsDigit e = true)
    (hns : w.nsPid e = .ok refNs)
    (hst : w.status e = .ok ls)
    (hparse : scanStatusLines ls none none = .error .valueError) :
    list_container_pids_and_names w pid = .error .valueError := by
  have hpe : processEntry w refNs e = .error .valueError := by
    simp [processEntry, hd, hns, hst, hparse]
  obtain ⟨err2, herr2⟩ :=
    scanEntries_error_of_mem w refNs w.entries e .valueError he hpe
  have hval := scanEntries_error_eq w refNs w.entries err2 herr2
  subst hval
  simp [list_container_pids_and_names, href, herr2]

/-- Witness for the amended C9: a malformed `NSpid:` token reached by
the loop aborts the call. -/
theorem claim_C9_witness :
    list_container_pids_and_names pw9w 8 = .error .valueError :=
  claim_C9_amended pw9w 8 "ns" "8" ["NSpid: zz"] (by decide) (by decide)
    (by decide) (by decide) (by decide) (by decide)
